import Mathlib

/-!
# Verification of the prometheus-rs metrics core

Shallow embedding of the `prometheus-rs` crate (files `src/label.rs`,
`src/histogram.rs`, `src/counter.rs`, `src/gauge.rs`, `src/atomics.rs`,
`src/registry.rs`, `src/export.rs`, `src/error.rs`) together with proofs
about the embedded definitions.

Modelling conventions:
* Atomic cells are modelled by their pure values; each mutating method
  becomes a pure state-transition function.
* `u64` values are `Nat` together with explicit `% 2^64` where the source
  performs wrapping `fetch_add`/`fetch_sub`; `i64` values are `Int` with an
  explicit two's-complement wrap.
* The generic numeric parameter `Atomic::Type` of histograms and counters
  (instantiated in the source at `u64`, `i64` and `f64`) is idealised as
  `Int`: an ordered type with exact addition, `PartialOrd` `<=` becoming
  `≤` and `Default::default()` becoming `0`.  `f64` arithmetic is idealised
  as exact (`ℚ` for the float counter); IEEE rounding, NaN and the sign of
  zero are outside this embedding.
* Fallible constructors return `Except PromErrorKind _`; methods that take
  `&self` and return `Result` are modelled as a pair of the successor state
  and an `Except` result, so that "no mutation on the error path" is
  expressible.
-/

namespace Prom

/-- Error kinds, from `src/error.rs` (`enum PromErrorKind`). -/
inductive PromErrorKind where
  | IncrementNegative
  | InvalidLabelName
  | InvalidMetricName
  | MissingComponent
  | BucketNotFound
  | DuplicatedCollector
  | FormattingError
deriving DecidableEq, Repr

/-- Decidable equality of `Except` results, needed to evaluate the
embedded fallible operations on concrete inputs. -/
instance {ε : Type u} {α : Type v} [DecidableEq ε] [DecidableEq α] :
    DecidableEq (Except ε α)
  | .ok a, .ok b =>
    if h : a = b then .isTrue (by rw [h])
    else .isFalse (by intro hc; cases hc; exact h rfl)
  | .ok _, .error _ => .isFalse (by intro h; cases h)
  | .error _, .ok _ => .isFalse (by intro h; cases h)
  | .error e, .error f =>
    if h : e = f then .isTrue (by rw [h])
    else .isFalse (by intro hc; cases hc; exact h rfl)

/-! ## Label and metric-name validation, from `src/label.rs` -/

/-- Translation of `valid_label_name`, from `src/label.rs` lines 7-19.  The source checks,
via a `chars` iterator: the label is non-empty, is not `"le"`, the first
character satisfies `is_ascii_alphabetic() || next == '_'`, the second
character (when present) satisfies the guard
`next.is_ascii_alphabetic() || next != '_'`, and every remaining character
satisfies `is_ascii_alphanumeric() || c == '_'`.  (`Char.isAlpha` and
`Char.isAlphanum` are the ASCII-only classifiers, matching
`is_ascii_alphabetic` / `is_ascii_alphanumeric`.) -/
def valid_label_name (label : String) : Bool :=
  !label.isEmpty && label != "le" &&
    (match label.data with
     | [] => false
     | first :: rest =>
       (first.isAlpha || first == '_') &&
         (match rest with
          | [] => true
          | second :: rest2 =>
            (second.isAlpha || second != '_') &&
              rest2.all (fun c => c.isAlphanum || c == '_')))

/-- The documented label-name contract: the regular expression
`[a-zA-Z_][a-zA-Z0-9_]*`, non-empty, and not the reserved name `le` —
from the doc comment on `valid_label_name` and the spec.  This is the
spec-side predicate that `valid_label_name` is claimed to implement. -/
def label_regex_ok (label : String) : Bool :=
  label != "le" &&
    (match label.data with
     | [] => false
     | first :: rest =>
       (first.isAlpha || first == '_') &&
         rest.all (fun c => c.isAlphanum || c == '_'))

/-- Translation of `valid_metric_name`, from `src/label.rs` lines 23-29: non-empty, first
character `[a-zA-Z_:]`, remaining characters `[a-zA-Z0-9_:]`. -/
def valid_metric_name (metric : String) : Bool :=
  !metric.isEmpty &&
    (match metric.data with
     | [] => false
     | first :: rest =>
       (first.isAlpha || first == '_' || first == ':') &&
         rest.all (fun c => c.isAlphanum || c == '_' || c == ':'))

/-- A label, from `src/label.rs` (`struct Label`): a validated name and an
arbitrary value.  Equality is structural (`derive PartialEq`). -/
structure Label where
  name : String
  value : String
deriving DecidableEq, Repr

/-- Translation of `Label::new`, from `src/label.rs` lines 41-58: validates the name with
`valid_label_name` and fails with `InvalidLabelName` otherwise. -/
def Label.new (name value : String) : Except PromErrorKind Label :=
  if valid_label_name name then .ok ⟨name, value⟩
  else .error .InvalidLabelName

/-! ## Atomic numerics, from `src/atomics.rs`

Each atomic cell is modelled by its current value.  The `u64`/`i64`
specialisations of `impl_atomic!` use native `fetch_add`/`fetch_sub`, whose
arithmetic wraps modulo `2^64`; the wrap is kept explicit below. -/

/-- The constant `2^64`, the modulus of the 64-bit atomics. -/
def U64MOD : Nat := 18446744073709551616

/-- Value computed by `AtomicU64::fetch_add`: wrapping addition modulo `2^64`. -/
def u64_add (v d : Nat) : Nat := (v + d) % U64MOD

/-- Value computed by `AtomicU64::fetch_sub`: wrapping subtraction modulo `2^64`
(for `v, d < 2^64` this is two's-complement `v - d`). -/
def u64_sub (v d : Nat) : Nat := ((v + U64MOD) - d % U64MOD) % U64MOD

/-- Two's-complement wrap of an integer into the `i64` range
`[-2^63, 2^63)`, the effect of `AtomicI64` wrapping arithmetic. -/
def i64_wrap (z : Int) : Int :=
  (z + 9223372036854775808) % 18446744073709551616 - 9223372036854775808

/-! ## Histogram, from `src/histogram.rs`

`Atomic::Type` is idealised as `Int` (see the header).  The per-bucket
cells, the `count : AtomicU64` and the `sum` cell of `HistogramCore` become
plain values; `count` keeps the explicit `% 2^64` of `AtomicU64.inc`. -/

/-- Translation of `Iterator::position`: index of the first element satisfying `p`, used
by `HistogramCore::observe` (`self.buckets.iter().position(|b| val <= *b)`). -/
def position (p : α → Bool) : List α → Option Nat
  | [] => none
  | x :: xs => if p x then some 0 else (position p xs).map (· + 1)

/-- Translation of `HistogramCore`, from `src/histogram.rs` lines 120-125: bucket upper
bounds, one counter cell per bucket, total observation count, running sum. -/
structure HistogramCore where
  buckets : List Int
  values : List Int
  count : Nat
  sum : Int
deriving DecidableEq, Repr

/-- Translation of `HistogramCore::new`, from `src/histogram.rs` lines 128-137: one zeroed
cell per bucket, zero count and sum. -/
def HistogramCore.new (buckets : List Int) : HistogramCore :=
  { buckets := buckets
    values := List.replicate buckets.length 0
    count := 0
    sum := 0 }

/-- Translation of `HistogramCore::observe`, from `src/histogram.rs` lines 139-146: find
the first bucket whose bound satisfies `val <= *b` and increment its cell
(when one exists), then increment `count` and add `val` to `sum`. -/
def HistogramCore.observe (h : HistogramCore) (val : Int) : HistogramCore :=
  { h with
    values :=
      match position (fun b => decide (val ≤ b)) h.buckets with
      | some idx => h.values.set idx (h.values.getD idx 0 + 1)
      | none => h.values
    count := (h.count + 1) % U64MOD
    sum := h.sum + val }

/-- Translation of `HistogramCore::clear`, from `src/histogram.rs` lines 148-155: zero
every cell, the count and the sum. -/
def HistogramCore.clear (h : HistogramCore) : HistogramCore :=
  { h with
    values := h.values.map (fun _ => 0)
    count := 0
    sum := 0 }

/-- Translation of `HistogramCore::observe_bucket`, from `src/histogram.rs` lines 165-178:
like `observe`, but when no bucket bound satisfies `val <= *b` it performs
no mutation at all and returns a `BucketNotFound` error.  Result: the
successor state paired with the `Result<()>`. -/
def HistogramCore.observe_bucket (h : HistogramCore) (val _bucket : Int) :
    HistogramCore × Except PromErrorKind Unit :=
  match position (fun b => decide (val ≤ b)) h.buckets with
  | some idx =>
    ({ h with
       values := h.values.set idx (h.values.getD idx 0 + 1)
       count := (h.count + 1) % U64MOD
       sum := h.sum + val },
     .ok ())
  | none => (h, .error .BucketNotFound)

/-- Translation of `HistogramBuilder`, from `src/histogram.rs` lines 27-32. -/
structure HistogramBuilder where
  name : Option String
  help : Option String
  labels : Option (List Label)
  buckets : Option (List Int)

/-- A built `Histogram`, from `src/histogram.rs` lines 190-193 (holding its
`Descriptor` fields inline). -/
structure Histogram where
  name : String
  help : String
  labels : List Label
  core : HistogramCore
deriving DecidableEq, Repr

/-- Help-text escaping done by `Descriptor::new` (`src/registry.rs` lines
214-218): `replace("\\", "\\\\").replace("\n", "\\n")`.  The two sequential
replaces are equivalent to this single per-character map, because the
backslashes produced by the first replace contain no newline. -/
def escape_help (s : String) : String :=
  String.join (s.data.map (fun c =>
    if c = '\\' then "\\\\" else if c = '\n' then "\\n" else String.singleton c))

/-- Translation of `HistogramBuilder::build`, from `src/histogram.rs` lines 84-116: `name`,
`help` and `buckets` are required (`MissingComponent` otherwise), `labels`
defaults to `[]`, empty bucket lists are rejected with `MissingComponent`,
and `Descriptor::new` validates the metric name (`InvalidMetricName`).
No ordering condition on `buckets` is checked anywhere. -/
def HistogramBuilder.build (b : HistogramBuilder) : Except PromErrorKind Histogram :=
  match b.name with
  | none => .error .MissingComponent
  | some name =>
    match b.help with
    | none => .error .MissingComponent
    | some help =>
      match b.buckets with
      | none => .error .MissingComponent
      | some buckets =>
        let labels := b.labels.getD []
        if buckets.isEmpty then .error .MissingComponent
        else if valid_metric_name name then
          .ok { name := name, help := escape_help help, labels := labels
                core := HistogramCore.new buckets }
        else .error .InvalidMetricName

/-- Translation of `InnerLocalHist`, from `src/histogram.rs` lines 314-319: the unshared
staging buffer of a `LocalHistogram` (the back-reference to the shared
histogram is passed explicitly to the operations). -/
structure InnerLocalHist where
  values : List Int
  count : Nat
  sum : Int
deriving DecidableEq, Repr

/-- Translation of `LocalHistogram::new`, from `src/histogram.rs` lines 356-365: a zeroed
buffer with one slot per shared cell. -/
def InnerLocalHist.new (core : HistogramCore) : InnerLocalHist :=
  { values := List.replicate core.values.length 0
    count := 0
    sum := 0 }

/-- Translation of `InnerLocalHist::observe`, from `src/histogram.rs` lines 322-329: find
the first bucket of the shared histogram whose bound satisfies
`val <= *b` and add **`val`** to the local slot (`self.values[idx] += val`
in the source — not `+= 1`), then `count += 1` and `sum += val`. -/
def InnerLocalHist.observe (core : HistogramCore) (l : InnerLocalHist)
    (val : Int) : InnerLocalHist :=
  { l with
    values :=
      match position (fun b => decide (val ≤ b)) core.buckets with
      | some idx => l.values.set idx (l.values.getD idx 0 + val)
      | none => l.values
    count := l.count + 1
    sum := l.sum + val }

/-- Translation of `InnerLocalHist::clear`, from `src/histogram.rs` lines 331-338. -/
def InnerLocalHist.clear (l : InnerLocalHist) : InnerLocalHist :=
  { l with values := l.values.map (fun _ => 0), count := 0, sum := 0 }

/-- Translation of `InnerLocalHist::flush`, from `src/histogram.rs` lines 340-352: a no-op
when `count == 0`; otherwise `core.values[i].inc_by(values[i])` for every
staged slot, `core.count.inc_by(count)`, `core.sum.inc_by(sum)`, then the
local buffer is cleared.  (The enumeration over the staged slots is the
`zipWith` below; the staged buffer has exactly one slot per shared cell by
construction, so the `++ drop` tail is empty in every reachable state.) -/
def InnerLocalHist.flush (core : HistogramCore) (l : InnerLocalHist) :
    HistogramCore × InnerLocalHist :=
  if l.count = 0 then (core, l)
  else
    ({ core with
       values := List.zipWith (· + ·) core.values l.values ++
         core.values.drop l.values.length
       count := (core.count + l.count) % U64MOD
       sum := core.sum + l.sum },
     l.clear)

/-! ## Counter, from `src/counter.rs`

The raw `Counter<Atomic>` (lines 43-68) is a bare atomic cell with `inc`,
`inc_by`, `get`, `clear` and `set`, none of which validates anything.  The
default atomic is `AtomicU64`, so the raw counter is modelled at `u64`. -/

/-- Translation of `Counter::inc` (`src/counter.rs` line 45) at `AtomicU64`. -/
def Counter.inc (v : Nat) : Nat := u64_add v 1

/-- Translation of `Counter::inc_by` (`src/counter.rs` line 50) at `AtomicU64`: no sign or
range check on the delta. -/
def Counter.inc_by (v d : Nat) : Nat := u64_add v d

/-- Translation of `Counter::set` (`src/counter.rs` line 65): unconditional store. -/
def Counter.set (_v x : Nat) : Nat := x

/-- Translation of `Counter::clear` (`src/counter.rs` line 60): reset to zero. -/
def Counter.clear (_v : Nat) : Nat := 0

/-- Translation of `IntCounter::inc_by`, from `src/counter.rs` lines 452-459:
`assert!(!inc.is_negative())` then wrapping `fetch_add`.  The assertion
failure (a panic that halts the caller) is `none`; on success the counter
holds the wrapped sum. -/
def IntCounter.inc_by (v d : Int) : Option Int :=
  if d < 0 then none else some (i64_wrap (v + d))

/-- Translation of `IntCounter::try_inc_by`, from `src/counter.rs` lines 475-488: if the
delta is not negative, add it and return `Ok`; otherwise leave the value
untouched and return an `IncrementNegative` error.  Result: the successor
value paired with the `Result<()>`. -/
def IntCounter.try_inc_by (v d : Int) : Int × Except PromErrorKind Unit :=
  if !(d < 0) then (i64_wrap (v + d), .ok ())
  else (v, .error .IncrementNegative)

/-- Translation of `FloatCounter::inc_by`, from `src/counter.rs` lines 275-282:
`assert!(inc.is_sign_positive())` then `fetch_add`.  `f64` is idealised as
`ℚ` and `is_sign_positive` as `0 ≤ d` (exact for every non-NaN delta other
than the negative zero, which has no `ℚ` counterpart). -/
def FloatCounter.inc_by (v d : ℚ) : Option ℚ :=
  if 0 ≤ d then some (v + d) else none

/-- Translation of `FloatCounter::try_inc_by`, from `src/counter.rs` lines 298-309, under
the same idealisation as `FloatCounter.inc_by`. -/
def FloatCounter.try_inc_by (v d : ℚ) : ℚ × Except PromErrorKind Unit :=
  if 0 ≤ d then (v + d, .ok ())
  else (v, .error .IncrementNegative)

/-! ## Gauge, from `src/gauge.rs`

`Gauge<AtomicU64>` (the default, the backing cell of `UintGauge`) simply
forwards to the atomic's wrapping operations (`src/gauge.rs` lines 42-69,
`src/atomics.rs` lines 102-119). -/

/-- Translation of `Gauge::dec` (`src/gauge.rs` lines 51-53) at `AtomicU64`:
`fetch_sub(1)`, wrapping. -/
def Gauge.dec (v : Nat) : Nat := u64_sub v 1

/-- Translation of `Gauge::dec_by` (`src/gauge.rs` lines 55-57) at `AtomicU64`:
`fetch_sub(dec)`, wrapping. -/
def Gauge.dec_by (v d : Nat) : Nat := u64_sub v d

/-! ## Registry, from `src/registry.rs`

For `RegistryBuilder::build` only the descriptor of each collector is
observable: its raw name and its ordered label list. -/

/-- The identity of a registered collector: `descriptor.name()` and
`descriptor.labels()` (`src/registry.rs` lines 53-55). -/
structure Collector where
  name : String
  labels : List Label
deriving DecidableEq, Repr

/-- The duplicate condition of `RegistryBuilder::build`
(`src/registry.rs` lines 53-56): same descriptor name and same ordered
label list. -/
def keyEq (a b : Collector) : Prop := a.name = b.name ∧ a.labels = b.labels

instance (a b : Collector) : Decidable (keyEq a b) := by
  unfold keyEq
  exact inferInstance

/-- The deduplicating accumulation loop of `RegistryBuilder::build`
(`src/registry.rs` lines 52-64): walk the raw inputs in order; if the next
input matches an already-accepted collector (`inputs.iter().any(...)`),
fail with `DuplicatedCollector`, else push it. -/
def dedup_collectors (acc : List Collector) :
    List Collector → Except PromErrorKind (List Collector)
  | [] => .ok acc
  | c :: rest =>
    if acc.any (fun a => decide (keyEq a c)) then .error .DuplicatedCollector
    else dedup_collectors (acc ++ [c]) rest

/-- Lexicographic less-or-equal on character lists: Rust's `str::cmp` is
lexicographic on the UTF-8 bytes, which coincides with code-point
lexicographic order. -/
def charListLeb : List Char → List Char → Bool
  | [], _ => true
  | _ :: _, [] => false
  | a :: as, b :: bs =>
    if a < b then true else if b < a then false else charListLeb as bs

/-- The comparator of `inputs.sort_unstable_by(|a, b| name.cmp(name))`
(`src/registry.rs` line 66): ascending lexicographic order of the raw
descriptor names. -/
def collLe (a b : Collector) : Prop :=
  charListLeb a.name.data b.name.data = true

instance : DecidableRel collLe := fun a b =>
  inferInstanceAs (Decidable (charListLeb a.name.data b.name.data = true))

instance : IsTotal Collector collLe :=
  ⟨fun a b => by
    unfold collLe
    generalize a.name.data = as
    generalize b.name.data = bs
    induction as generalizing bs with
    | nil => exact Or.inl rfl
    | cons x xs ih =>
      cases bs with
      | nil => exact Or.inr rfl
      | cons y ys =>
        by_cases hxy : x < y
        · exact Or.inl (by simp [charListLeb, hxy])
        by_cases hyx : y < x
        · exact Or.inr (by simp [charListLeb, hyx])
        rcases ih ys with h | h
        · exact Or.inl (by simp [charListLeb, hxy, hyx, h])
        · exact Or.inr (by simp [charListLeb, hxy, hyx, h])⟩

instance : IsTrans Collector collLe :=
  ⟨fun a b c hab hbc => by
    unfold collLe at *
    have go : ∀ (as bs cs : List Char), charListLeb as bs = true →
        charListLeb bs cs = true → charListLeb as cs = true := by
      intro as
      induction as with
      | nil => intro bs cs _ _; rfl
      | cons x xs ih =>
        intro bs cs h1 h2
        cases bs with
        | nil => simp [charListLeb] at h1
        | cons y ys =>
          cases cs with
          | nil => simp [charListLeb] at h2
          | cons z zs =>
            by_cases hxy : x < y
            · by_cases hyz : y < z
              · simp [charListLeb, lt_trans hxy hyz]
              · by_cases hzy : z < y
                · simp [charListLeb, hyz, hzy] at h2
                · have heq : y = z := le_antisymm (not_lt.mp hzy) (not_lt.mp hyz)
                  subst heq
                  simp [charListLeb, hxy]
            · by_cases hyx : y < x
              · simp [charListLeb, hxy, hyx] at h1
              · have heq : x = y := le_antisymm (not_lt.mp hyx) (not_lt.mp hxy)
                subst heq
                simp only [charListLeb, lt_irrefl, if_false] at h1
                by_cases hxz : x < z
                · simp [charListLeb, hxz]
                · by_cases hzx : z < x
                  · simp [charListLeb, hxz, hzx] at h2
                  · have heq2 : x = z := le_antisymm (not_lt.mp hzx) (not_lt.mp hxz)
                    subst heq2
                    simp only [charListLeb, lt_irrefl, if_false] at h2
                    simp [charListLeb, lt_irrefl, ih _ _ h1 h2]
    exact go _ _ _ hab hbc⟩

/-- Translation of `RegistryBuilder::build`, from `src/registry.rs` lines 34-69: fails
with `MissingComponent` when no collector was ever supplied (`inputs` is
`None`) or the supplied list is empty; otherwise deduplicates in
registration order and sorts the accepted collectors by raw descriptor
name.  (`sort_unstable_by` is an unspecified-order comparison sort; it is
modelled by insertion sort with the same comparator.) -/
def registry_build (inputs : Option (List Collector)) :
    Except PromErrorKind (List Collector) :=
  match inputs with
  | none => .error .MissingComponent
  | some raw =>
    if raw.isEmpty then .error .MissingComponent
    else
      match dedup_collectors [] raw with
      | .error e => .error e
      | .ok accepted => .ok (List.insertionSort collLe accepted)

/-! ## Text rendering, from `src/registry.rs` and `src/export.rs` -/

/-- One lowercase hexadecimal digit, as produced by Rust's `{:x}`-style
escapes. -/
def hexDigit (n : Nat) : Char :=
  match n with
  | 0 => '0' | 1 => '1' | 2 => '2' | 3 => '3' | 4 => '4'
  | 5 => '5' | 6 => '6' | 7 => '7' | 8 => '8' | 9 => '9'
  | 10 => 'a' | 11 => 'b' | 12 => 'c' | 13 => 'd' | 14 => 'e' | 15 => 'f'
  | _ => '0'

/-- Lowercase hex of a byte-sized code point (no leading zeros), used by
the `\u` escape of `char::escape_debug`.  Only values below 128 occur. -/
def hexByte (n : Nat) : String :=
  if n < 16 then String.singleton (hexDigit n)
  else String.singleton (hexDigit (n / 16)) ++ String.singleton (hexDigit (n % 16))

/-- Rust's `Debug` escaping of one character inside a `&str` (the `{:?}`
format used for label values): `"`, `\`, `\n`, `\r`, `\t` and `\0` get
backslash escapes, other control characters become `\u{..}` escapes, and
everything else is emitted as itself.  (Single quotes are not escaped
inside a `&str`; printability of non-ASCII characters is idealised as
printable.) -/
def escapeDebugChar (c : Char) : String :=
  if c = '"' then "\\\""
  else if c = '\\' then "\\\\"
  else if c = '\n' then "\\n"
  else if c = '\r' then "\\r"
  else if c = '\t' then "\\t"
  else if c.toNat = 0 then "\\0"
  else if c.toNat < 32 || c.toNat = 127 then
    "\\u\x7b" ++ hexByte c.toNat ++ "\x7d"
  else String.singleton c

/-- Concatenated escapes of a character list. -/
def escapeChars : List Char → String
  | [] => ""
  | c :: cs => escapeDebugChar c ++ escapeChars cs

/-- Rust's `format!("{:?}", s)` for a string: the escaped body wrapped in
double quotes. -/
def rustDebugStr (s : String) : String :=
  "\"" ++ escapeChars s.data ++ "\""

/-- The comma-joined label list `name={:?}` rendering shared by
`Metric::text_format` (`src/registry.rs` lines 155-160) and
`Exportable::export` (`src/export.rs` lines 28-40): every label but the
last is followed by a comma. -/
def labelList : List Label → String
  | [] => ""
  | [l] => l.name ++ "=" ++ rustDebugStr l.value
  | l :: l2 :: rest => l.name ++ "=" ++ rustDebugStr l.value ++ "," ++
      labelList (l2 :: rest)

/-- Translation of `Metric::text_format`, from `src/registry.rs` lines 136-169, for a
counter or gauge value: a `# HELP name help` line, a `# TYPE name kind`
line, then the sample line `name{labels} value` whose brace block is
omitted when the metric has no labels. -/
def text_format (name help : String) (isCounter : Bool) (labels : List Label)
    (val : String) : String :=
  "# HELP " ++ name ++ " " ++ help ++ "\n" ++
  "# TYPE " ++ name ++ " " ++ (if isCounter then "counter" else "gauge") ++ "\n" ++
  name ++
  (if labels.isEmpty then "" else "\x7b" ++ labelList labels ++ "\x7d") ++
  " " ++ val ++ "\n"

/-- Translation of `Exportable for Labeled<T>::export`, from `src/export.rs` lines 15-50:
`write!(f, "# HELP {}\n# TYPE {}\n{}", description, metric_kind, name)`,
then the label block (`"{...} "`, or a single space when there are no
labels), then the inner value rendering, then a newline.  Note the HELP
and TYPE lines carry no metric name. -/
def labeled_export (name description kind : String) (labels : List Label)
    (val : String) : String :=
  "# HELP " ++ description ++ "\n" ++ "# TYPE " ++ kind ++ "\n" ++ name ++
  (if labels.isEmpty then " " else "\x7b" ++ labelList labels ++ "\x7d ") ++
  val ++ "\n"

/-- Whether a string contains no newline character (one rendered line). -/
def newlineFree (s : String) : Bool := s.data.all (fun c => c != '\n')

/-- Structural invariant of a built histogram that the code actually
maintains: one counter cell per bucket and a non-empty bucket list. -/
def HistInv (h : HistogramCore) : Prop :=
  h.values.length = h.buckets.length ∧ h.buckets ≠ []

/-! ## Helper lemmas -/

theorem position_none_iff (p : α → Bool) (l : List α) :
    position p l = none ↔ ∀ x ∈ l, p x = false := by
  induction l with
  | nil => simp [position]
  | cons x xs ih =>
    by_cases hx : p x
    · simp [position, hx]
    · simp [position, hx, Option.map_eq_none', ih]

theorem position_spec (p : α → Bool) (d : α) (l : List α) :
    ∀ i, position p l = some i →
      i < l.length ∧ p (l.getD i d) = true ∧ ∀ j, j < i → p (l.getD j d) = false := by
  induction l with
  | nil => intro i h; simp [position] at h
  | cons x xs ih =>
    intro i h
    by_cases hx : p x
    · simp [position, hx] at h
      subst h
      exact ⟨Nat.succ_pos _, by simpa using hx, fun j hj => absurd hj (Nat.not_lt_zero _)⟩
    · simp [position, hx, Option.map_eq_some'] at h
      obtain ⟨i2, hi2, rfl⟩ := h
      obtain ⟨hlen, hget, hprev⟩ := ih i2 hi2
      refine ⟨Nat.succ_lt_succ hlen, by simpa using hget, ?_⟩
      intro j hj
      cases j with
      | zero => simpa using hx
      | succ j2 => simpa using hprev j2 (Nat.lt_of_succ_lt_succ hj)

theorem dedup_ok_eq :
    ∀ (l acc m : List Collector), dedup_collectors acc l = .ok m → m = acc ++ l := by
  intro l
  induction l with
  | nil =>
    intro acc m h
    simp only [dedup_collectors] at h
    cases h
    simp
  | cons c rest ih =>
    intro acc m h
    simp only [dedup_collectors] at h
    split at h
    · cases h
    · have := ih (acc ++ [c]) m h
      simpa [List.append_assoc] using this

theorem dedup_error_kind :
    ∀ (l acc : List Collector) (e : PromErrorKind),
      dedup_collectors acc l = .error e → e = .DuplicatedCollector := by
  intro l
  induction l with
  | nil => intro acc e h; simp [dedup_collectors] at h
  | cons c rest ih =>
    intro acc e h
    simp only [dedup_collectors] at h
    split at h
    · cases h; rfl
    · exact ih (acc ++ [c]) e h

theorem dedup_ok_iff :
    ∀ (l acc : List Collector),
      (∃ m, dedup_collectors acc l = .ok m) ↔
        ((∀ c ∈ l, ∀ a ∈ acc, ¬ keyEq a c) ∧
          l.Pairwise (fun a b => ¬ keyEq a b)) := by
  intro l
  induction l with
  | nil => intro acc; simp [dedup_collectors]
  | cons c rest ih =>
    intro acc
    simp only [dedup_collectors]
    cases hany : acc.any (fun a => decide (keyEq a c)) with
    | true =>
      simp only [if_pos rfl]
      constructor
      · rintro ⟨m, hm⟩
        cases hm
      · rintro ⟨h1, -⟩
        obtain ⟨a, ha, hk⟩ := List.any_eq_true.mp hany
        exact absurd (of_decide_eq_true hk) (h1 c (by simp) a ha)
    | false =>
      rw [if_neg Bool.false_ne_true]
      have haccc : ∀ a ∈ acc, ¬ keyEq a c := by
        intro a ha hk
        have : acc.any (fun a => decide (keyEq a c)) = true :=
          List.any_eq_true.mpr ⟨a, ha, decide_eq_true hk⟩
        simp [hany] at this
      rw [ih (acc ++ [c])]
      constructor
      · rintro ⟨hacc, hpw⟩
        refine ⟨?_, List.pairwise_cons.mpr ⟨?_, hpw⟩⟩
        · intro c2 hc2 a ha
          rcases List.mem_cons.mp hc2 with rfl | hc2
          · exact haccc a ha
          · exact hacc c2 hc2 a (List.mem_append_left _ ha)
        · intro b hb
          exact hacc b hb c (List.mem_append_right _ (by simp))
      · rintro ⟨hall, hpw⟩
        have hpc := List.pairwise_cons.mp hpw
        refine ⟨?_, hpc.2⟩
        intro c2 hc2 a ha
        rcases List.mem_append.mp ha with ha | ha
        · exact hall c2 (List.mem_cons_of_mem _ hc2) a ha
        · have : a = c := by simpa using ha
          subst this
          exact hpc.1 c2 hc2

theorem string_eq_of_data (a b : String) (h : a.data = b.data) : a = b :=
  congrArg String.mk h

theorem string_data_append (a b : String) : (a ++ b).data = a.data ++ b.data := rfl

theorem newlineFree_append (a b : String) :
    newlineFree (a ++ b) = (newlineFree a && newlineFree b) := by
  simp [newlineFree, string_data_append]

theorem newlineFree_singleton (c : Char) :
    newlineFree (String.singleton c) = (c != '\n') := by
  simp [newlineFree, String.singleton]

theorem hexDigit_ne_newline (n : Nat) : (hexDigit n != '\n') = true := by
  unfold hexDigit
  split <;> decide

theorem hexByte_newlineFree (n : Nat) : newlineFree (hexByte n) = true := by
  unfold hexByte
  split
  · rw [newlineFree_singleton]
    exact hexDigit_ne_newline n
  · rw [newlineFree_append, newlineFree_singleton, newlineFree_singleton,
      hexDigit_ne_newline, hexDigit_ne_newline]
    rfl

theorem escapeDebugChar_newlineFree (c : Char) :
    newlineFree (escapeDebugChar c) = true := by
  unfold escapeDebugChar
  by_cases h1 : c = '"'
  · rw [if_pos h1]; decide
  rw [if_neg h1]
  by_cases h2 : c = '\\'
  · rw [if_pos h2]; decide
  rw [if_neg h2]
  by_cases h3 : c = '\n'
  · rw [if_pos h3]; decide
  rw [if_neg h3]
  by_cases h4 : c = '\r'
  · rw [if_pos h4]; decide
  rw [if_neg h4]
  by_cases h5 : c = '\t'
  · rw [if_pos h5]; decide
  rw [if_neg h5]
  by_cases h6 : c.toNat = 0
  · rw [if_pos h6]; decide
  rw [if_neg h6]
  by_cases h7 : c.toNat < 32 ∨ c.toNat = 127
  · rw [if_pos (by simpa using h7), newlineFree_append, newlineFree_append,
      hexByte_newlineFree]
    decide
  · rw [if_neg (by simpa using h7), newlineFree_singleton]
    simpa using h3

theorem escapeChars_newlineFree (cs : List Char) :
    newlineFree (escapeChars cs) = true := by
  induction cs with
  | nil => rfl
  | cons c rest ih =>
    rw [escapeChars, newlineFree_append, escapeDebugChar_newlineFree c, ih]
    rfl

theorem rustDebugStr_newlineFree (s : String) :
    newlineFree (rustDebugStr s) = true := by
  rw [rustDebugStr, newlineFree_append, newlineFree_append,
    escapeChars_newlineFree]
  rfl

theorem labelList_newlineFree :
    ∀ ls : List Label, (∀ l ∈ ls, newlineFree l.name = true) →
      newlineFree (labelList ls) = true := by
  intro ls
  induction ls with
  | nil => intro _; rfl
  | cons l rest ih =>
    intro h
    have hname : newlineFree l.name = true := h l (by simp)
    have heq : newlineFree "=" = true := rfl
    have hcomma : newlineFree "," = true := rfl
    cases rest with
    | nil =>
      simp [labelList, newlineFree_append, hname, rustDebugStr_newlineFree, heq]
    | cons l2 rest2 =>
      have htail := ih (fun x hx => h x (List.mem_cons_of_mem _ hx))
      simp [labelList, newlineFree_append, hname, rustDebugStr_newlineFree,
        htail, heq, hcomma]

theorem valid_metric_name_newlineFree (s : String)
    (h : valid_metric_name s = true) : newlineFree s = true := by
  unfold valid_metric_name at h
  unfold newlineFree
  cases hd : s.data with
  | nil => simp
  | cons c rest =>
    rw [hd] at h
    simp only [Bool.and_eq_true] at h
    obtain ⟨-, hfirst, hrest⟩ := h
    simp only [List.all_cons, Bool.and_eq_true]
    constructor
    · rcases eq_or_ne c '\n' with rfl | hne
      · exact absurd hfirst (by decide)
      · simpa using hne
    · rw [List.all_eq_true] at hrest ⊢
      intro x hx
      rcases eq_or_ne x '\n' with rfl | hne
      · exact absurd (hrest _ hx) (by decide)
      · simpa using hne

/-! ## Claim theorems -/

/-- C4 (code bug): the claim says `Label::new` accepts a name iff it is
non-empty, not `"le"`, and matches `[a-zA-Z_][a-zA-Z0-9_]*`, and lists
`"a b"` among the rejected names.  The code's second-character guard
`next.is_ascii_alphabetic() || next != '_'` is wrong: it accepts any
second character except `'_'` — so `"a b"` is accepted even though the
regex (and the claim, and the function's own doc comment) rejects it, and
`"a_b"` is rejected even though the regex accepts it.  The other listed
cases behave as claimed. -/
theorem valid_label_name_failing_input :
    valid_label_name "a b" = true ∧ label_regex_ok "a b" = false ∧
    Label.new "a b" "v" = .ok ⟨"a b", "v"⟩ ∧
    valid_label_name "a_b" = false ∧ label_regex_ok "a_b" = true ∧
    Label.new "a_b" "v" = .error .InvalidLabelName ∧
    valid_label_name "le" = false ∧ valid_label_name "" = false ∧
    valid_label_name "1abc" = false ∧ valid_label_name "abc_123" = true ∧
    valid_label_name "_private" = true := by
  decide

/-- C1 (code bug): flushing a `LocalHistogram` is claimed to leave the
shared core exactly as if the staged values had been observed directly.
`InnerLocalHist::observe` stages `values[idx] += val` where the shared
`HistogramCore::observe` performs `values[idx].inc()` (`+1`), so after
staging a single observation of `2` against buckets `[10]` and flushing,
the shared bucket counter is `2`, while a direct `observe(2)` leaves it at
`1`; count and sum agree.  (The zero-staged flush really is a no-op, as
the claim also states.) -/
theorem local_histogram_flush_failing_input :
    (InnerLocalHist.flush (HistogramCore.new [10])
        (InnerLocalHist.observe (HistogramCore.new [10])
          (InnerLocalHist.new (HistogramCore.new [10])) 2)).1.values = [2] ∧
    ((HistogramCore.new [10]).observe 2).values = [1] ∧
    (InnerLocalHist.flush (HistogramCore.new [10])
        (InnerLocalHist.observe (HistogramCore.new [10])
          (InnerLocalHist.new (HistogramCore.new [10])) 2)).1.values ≠
      ((HistogramCore.new [10]).observe 2).values ∧
    (InnerLocalHist.flush (HistogramCore.new [10])
        (InnerLocalHist.observe (HistogramCore.new [10])
          (InnerLocalHist.new (HistogramCore.new [10])) 2)).1.count =
      ((HistogramCore.new [10]).observe 2).count ∧
    (InnerLocalHist.flush (HistogramCore.new [10])
        (InnerLocalHist.observe (HistogramCore.new [10])
          (InnerLocalHist.new (HistogramCore.new [10])) 2)).1.sum =
      ((HistogramCore.new [10]).observe 2).sum ∧
    (InnerLocalHist.flush (HistogramCore.new [10])
        (InnerLocalHist.observe (HistogramCore.new [10])
          (InnerLocalHist.new (HistogramCore.new [10])) 2)).2 =
      InnerLocalHist.new (HistogramCore.new [10]) ∧
    InnerLocalHist.flush (HistogramCore.new [10])
        (InnerLocalHist.new (HistogramCore.new [10])) =
      (HistogramCore.new [10], InnerLocalHist.new (HistogramCore.new [10])) := by
  decide

/-- C9 (counterexample): `Counter::set` is a public counter operation
other than `clear`, yet `set(3)` on a counter holding `5` drops the value
below its previous value, refuting "every public Counter operation other
than clear() leaves the value greater than or equal to its previous
value". -/
theorem counter_set_decreases :
    Counter.set 5 3 = 3 ∧ ¬ 5 ≤ Counter.set 5 3 := by
  decide

/-- C9 (amended): the raw `Counter` is non-decreasing under `inc` and
`inc_by` in the absence of `u64` wraparound, `clear` resets it to exactly
zero, and `set` stores an arbitrary caller-chosen value, which may be
below the previous one. -/
theorem counter_monotonic_amended (v d x : Nat) :
    (v + 1 < U64MOD → v ≤ Counter.inc v) ∧
    (v + d < U64MOD → v ≤ Counter.inc_by v d) ∧
    Counter.clear v = 0 ∧
    Counter.set v x = x := by
  refine ⟨?_, ?_, rfl, rfl⟩
  · intro h
    rw [Counter.inc, u64_add, Nat.mod_eq_of_lt h]
    omega
  · intro h
    rw [Counter.inc_by, u64_add, Nat.mod_eq_of_lt h]
    omega

/-- Witness for `counter_monotonic_amended` at `v = 5`, `d = 3`, `x = 7`. -/
theorem counter_monotonic_amended_witness :
    5 ≤ Counter.inc 5 ∧ 5 ≤ Counter.inc_by 5 3 ∧ Counter.clear 5 = 0 ∧
    Counter.set 5 7 = 7 :=
  ⟨(counter_monotonic_amended 5 3 7).1 (by decide),
   (counter_monotonic_amended 5 3 7).2.1 (by decide),
   (counter_monotonic_amended 5 3 7).2.2.1,
   (counter_monotonic_amended 5 3 7).2.2.2⟩

/-- C10: for the `u64`-backed gauge, decrement arithmetic is modulo
`2^64`: `dec()` at `0` yields `2^64 - 1`, and `dec_by(d)` at `v` yields
`(v - d) mod 2^64`, with no error or saturation. -/
theorem gauge_dec_wraps (v d : Nat) (hv : v < U64MOD) (hd : d < U64MOD) :
    Gauge.dec 0 = U64MOD - 1 ∧
    (Gauge.dec_by v d : Int) = ((v : Int) - d) % (U64MOD : Int) := by
  constructor
  · decide
  · rw [Gauge.dec_by, u64_sub, U64MOD] at *
    omega

/-- Witness for `gauge_dec_wraps` at `v = 5`, `d = 7`. -/
theorem gauge_dec_wraps_witness :
    Gauge.dec 0 = U64MOD - 1 ∧
    (Gauge.dec_by 5 7 : Int) = ((5 : Int) - 7) % (U64MOD : Int) :=
  gauge_dec_wraps 5 7 (by decide) (by decide)

/-- C8: for `IntCounter` and `FloatCounter`, `inc_by` with a negative
delta is a fatal precondition failure (`none`, the assertion panic) and
`try_inc_by` with a negative delta returns `IncrementNegative` leaving
the value unchanged; for every non-negative delta (zero included) both
add exactly the delta (`i64` addition wraps, and equals the exact sum
whenever it stays in the `i64` range; the float side is exact under the
`ℚ` idealisation of `f64`). -/
theorem counter_inc_by_spec (v d : Int) (q e : ℚ) :
    (d < 0 → IntCounter.inc_by v d = none ∧
      IntCounter.try_inc_by v d = (v, .error .IncrementNegative)) ∧
    (0 ≤ d → IntCounter.inc_by v d = some (i64_wrap (v + d)) ∧
      IntCounter.try_inc_by v d = (i64_wrap (v + d), .ok ())) ∧
    (-9223372036854775808 ≤ v + d → v + d < 9223372036854775808 →
      i64_wrap (v + d) = v + d) ∧
    (e < 0 → FloatCounter.inc_by q e = none ∧
      FloatCounter.try_inc_by q e = (q, .error .IncrementNegative)) ∧
    (0 ≤ e → FloatCounter.inc_by q e = some (q + e) ∧
      FloatCounter.try_inc_by q e = (q + e, .ok ())) := by
  refine ⟨?_, ?_, ?_, ?_, ?_⟩
  · intro h
    constructor
    · rw [IntCounter.inc_by, if_pos h]
    · rw [IntCounter.try_inc_by, if_neg (by simpa using h)]
  · intro h
    have h2 : ¬ d < 0 := not_lt.mpr h
    constructor
    · rw [IntCounter.inc_by, if_neg h2]
    · rw [IntCounter.try_inc_by, if_pos (by simpa using h2)]
  · intro h1 h2
    rw [i64_wrap]
    omega
  · intro h
    have h2 : ¬ 0 ≤ e := not_le.mpr h
    constructor
    · rw [FloatCounter.inc_by, if_neg h2]
    · rw [FloatCounter.try_inc_by, if_neg h2]
  · intro h
    constructor
    · rw [FloatCounter.inc_by, if_pos h]
    · rw [FloatCounter.try_inc_by, if_pos h]

/-- Witness for `counter_inc_by_spec`: negative deltas at `-2`, the
non-negative path at `2` (integer) and `1/2` (float). -/
theorem counter_inc_by_spec_witness :
    IntCounter.inc_by 1 (-2) = none ∧
    IntCounter.try_inc_by 1 (-2) = (1, .error .IncrementNegative) ∧
    IntCounter.inc_by 1 2 = some (i64_wrap (1 + 2)) ∧
    FloatCounter.try_inc_by 1 (1 / 2 : ℚ) = ((1 : ℚ) + (1 / 2 : ℚ), .ok ()) :=
  ⟨((counter_inc_by_spec 1 (-2) 1 (1 / 2 : ℚ)).1 (by decide)).1,
   ((counter_inc_by_spec 1 (-2) 1 (1 / 2 : ℚ)).1 (by decide)).2,
   ((counter_inc_by_spec 1 2 1 (1 / 2 : ℚ)).2.1 (by decide)).1,
   ((counter_inc_by_spec 1 2 1 (1 / 2 : ℚ)).2.2.2.2 (by norm_num)).2⟩

/-- C3: `observe(v)` increments exactly the first bucket (in position
order) whose upper bound is `>= v` when one exists — the boundary is
inclusive (`val <= *b`), so a value equal to a bound lands in that
bucket — and in every case increments the total count by one (`u64`
increment, exact below `2^64`) and adds `v` to the running sum; when `v`
exceeds every bound no bucket cell changes and no error occurs. -/
theorem histogram_observe_spec (h : HistogramCore) (val : Int) :
    (h.observe val).buckets = h.buckets ∧
    (h.observe val).count = (h.count + 1) % U64MOD ∧
    (h.count + 1 < U64MOD → (h.observe val).count = h.count + 1) ∧
    (h.observe val).sum = h.sum + val ∧
    ((∃ b ∈ h.buckets, val ≤ b) →
      ∃ i, position (fun b => decide (val ≤ b)) h.buckets = some i ∧
        i < h.buckets.length ∧ val ≤ h.buckets.getD i 0 ∧
        (∀ j, j < i → h.buckets.getD j 0 < val) ∧
        (h.observe val).values = h.values.set i (h.values.getD i 0 + 1)) ∧
    ((∀ b ∈ h.buckets, b < val) → (h.observe val).values = h.values) := by
  refine ⟨rfl, rfl, fun hlt => Nat.mod_eq_of_lt hlt, rfl, ?_, ?_⟩
  · rintro ⟨b, hb, hvb⟩
    cases hp : position (fun b => decide (val ≤ b)) h.buckets with
    | none =>
      have := (position_none_iff _ h.buckets).mp hp b hb
      exact absurd hvb (by simpa using this)
    | some i =>
      obtain ⟨hlen, hget, hprev⟩ := position_spec _ 0 h.buckets i hp
      refine ⟨i, rfl, hlen, by simpa using hget, ?_, ?_⟩
      · intro j hj
        have := hprev j hj
        simpa using this
      · simp [HistogramCore.observe, hp]
  · intro hall
    have hp : position (fun b => decide (val ≤ b)) h.buckets = none :=
      (position_none_iff _ h.buckets).mpr
        (fun x hx => by simpa using not_le.mpr (hall x hx))
    simp [HistogramCore.observe, hp]

/-- Witness for `histogram_observe_spec` on buckets `[1, 5]` with the
boundary value `5`: the second bucket is hit, count and sum advance. -/
theorem histogram_observe_spec_witness :
    (HistogramCore.observe ⟨[1, 5], [0, 0], 0, 0⟩ 5).count = 0 + 1 ∧
    (HistogramCore.observe ⟨[1, 5], [0, 0], 0, 0⟩ 5).sum = 0 + 5 ∧
    (HistogramCore.observe ⟨[1, 5], [0, 0], 0, 0⟩ 5).values =
      List.set [0, 0] 1 (List.getD [0, 0] 1 0 + 1) :=
  ⟨(histogram_observe_spec ⟨[1, 5], [0, 0], 0, 0⟩ 5).2.2.1 (by decide),
   (histogram_observe_spec ⟨[1, 5], [0, 0], 0, 0⟩ 5).2.2.2.1,
   by
    obtain ⟨i, hp, -, -, -, hv⟩ :=
      (histogram_observe_spec ⟨[1, 5], [0, 0], 0, 0⟩ 5).2.2.2.2.1
        ⟨5, by decide, by decide⟩
    have : i = 1 := by
      have : position (fun b => decide ((5 : Int) ≤ b)) [1, 5] = some 1 := by decide
      rw [this] at hp
      cases hp
      rfl
    rw [this] at hv
    exact hv⟩

/-- C7: `observe_bucket(val, expected)` returns `BucketNotFound` exactly
when no configured bound is `>= val`; on that error path the histogram is
completely unchanged, and on success it increments the first bucket whose
bound is `>= val`, increments the count by one (`u64` increment, exact
below `2^64`) and adds `val` to the sum. -/
theorem histogram_observe_bucket_spec (h : HistogramCore) (val bucket : Int) :
    ((h.observe_bucket val bucket).2 = .error .BucketNotFound ↔
      ∀ b ∈ h.buckets, b < val) ∧
    ((∀ b ∈ h.buckets, b < val) → (h.observe_bucket val bucket).1 = h) ∧
    (∀ i, position (fun b => decide (val ≤ b)) h.buckets = some i →
      (h.observe_bucket val bucket).2 = .ok () ∧
      i < h.buckets.length ∧ val ≤ h.buckets.getD i 0 ∧
      (∀ j, j < i → h.buckets.getD j 0 < val) ∧
      (h.observe_bucket val bucket).1.values =
        h.values.set i (h.values.getD i 0 + 1) ∧
      (h.observe_bucket val bucket).1.count = (h.count + 1) % U64MOD ∧
      (h.count + 1 < U64MOD →
        (h.observe_bucket val bucket).1.count = h.count + 1) ∧
      (h.observe_bucket val bucket).1.sum = h.sum + val) := by
  refine ⟨?_, ?_, ?_⟩
  · cases hp : position (fun b => decide (val ≤ b)) h.buckets with
    | none =>
      have hall := (position_none_iff _ h.buckets).mp hp
      constructor
      · intro _ b hb
        have := hall b hb
        simpa using this
      · intro _
        simp [HistogramCore.observe_bucket, hp]
    | some i =>
      obtain ⟨hlen, hget, -⟩ := position_spec _ 0 h.buckets i hp
      constructor
      · intro hc
        rw [HistogramCore.observe_bucket, hp] at hc
        cases hc
      · intro hall
        have hbd : h.buckets.getD i 0 ∈ h.buckets := by
          rw [List.getD_eq_getElem _ _ hlen]
          exact List.getElem_mem _
        have := hall _ hbd
        exact absurd (of_decide_eq_true hget) (not_le.mpr this)
  · intro hall
    have hp : position (fun b => decide (val ≤ b)) h.buckets = none :=
      (position_none_iff _ h.buckets).mpr
        (fun x hx => by simpa using not_le.mpr (hall x hx))
    simp [HistogramCore.observe_bucket, hp]
  · intro i hp
    obtain ⟨hlen, hget, hprev⟩ := position_spec _ 0 h.buckets i hp
    refine ⟨?_, hlen, by simpa using hget, ?_, ?_, ?_, ?_, ?_⟩ <;>
      simp [HistogramCore.observe_bucket, hp]
    · intro j hj
      have := hprev j hj
      simpa using this
    · intro hlt
      exact Nat.mod_eq_of_lt hlt

/-- Witness for `histogram_observe_bucket_spec` on buckets `[1, 5]`: the
value `7` exceeds every bound, errors, and mutates nothing; the value `1`
succeeds into the first bucket. -/
theorem histogram_observe_bucket_spec_witness :
    (HistogramCore.observe_bucket ⟨[1, 5], [0, 0], 0, 0⟩ 7 5).1 =
      ⟨[1, 5], [0, 0], 0, 0⟩ ∧
    (HistogramCore.observe_bucket ⟨[1, 5], [0, 0], 0, 0⟩ 1 1).2 = .ok () ∧
    (HistogramCore.observe_bucket ⟨[1, 5], [0, 0], 0, 0⟩ 1 1).1.values =
      List.set [0, 0] 0 (List.getD [0, 0] 0 0 + 1) :=
  ⟨(histogram_observe_bucket_spec ⟨[1, 5], [0, 0], 0, 0⟩ 7 5).2.1 (by decide),
   ((histogram_observe_bucket_spec ⟨[1, 5], [0, 0], 0, 0⟩ 1 1).2.2 0
      (by decide)).1,
   ((histogram_observe_bucket_spec ⟨[1, 5], [0, 0], 0, 0⟩ 1 1).2.2 0
      (by decide)).2.2.2.2.1⟩

/-- C6 (counterexample): `HistogramBuilder::build` checks only that the
bucket list is non-empty, never that it is sorted: building with buckets
`[2, 1]` succeeds, and `[2, 1]` is not strictly ascending.  (The crate's
own `build` test uses the non-strictly-ascending buckets
`[-1.0, -0.0, 0.0, 1.0]`.) -/
theorem histogram_build_unsorted :
    HistogramBuilder.build ⟨some "h", some "x", none, some [2, 1]⟩ =
      .ok ⟨"h", "x", [], HistogramCore.new [2, 1]⟩ ∧
    ¬ List.Pairwise (fun a b : Int => a < b) [2, 1] := by
  constructor
  · rfl
  · decide

/-- C6 (amended): every successful `HistogramBuilder::build` yields a
histogram whose bucket list is non-empty and is exactly the caller's list
(in caller order — the builder enforces no ascending-order condition), with
one zeroed counter cell per bucket; `observe`, `observe_bucket`, `clear`
and local-histogram `flush` (whose staged buffer has one slot per shared
cell) all preserve the non-emptiness and the cells-per-bucket equality. -/
theorem histogram_invariant_amended :
    (∀ (b : HistogramBuilder) (hist : Histogram),
      b.build = .ok hist →
        HistInv hist.core ∧ hist.core.buckets = b.buckets.getD [] ∧
        hist.core.values =
          List.replicate (b.buckets.getD []).length 0 ∧
        hist.core.count = 0 ∧ hist.core.sum = 0) ∧
    (∀ (h : HistogramCore) (val : Int), HistInv h → HistInv (h.observe val)) ∧
    (∀ (h : HistogramCore) (val bucket : Int),
      HistInv h → HistInv (h.observe_bucket val bucket).1) ∧
    (∀ h : HistogramCore, HistInv h → HistInv h.clear) ∧
    (∀ (h : HistogramCore) (l : InnerLocalHist),
      HistInv h → l.values.length = h.values.length →
        HistInv (InnerLocalHist.flush h l).1) := by
  refine ⟨?_, ?_, ?_, ?_, ?_⟩
  · intro b hist hb
    rw [HistogramBuilder.build] at hb
    rcases b with ⟨bn, bh, bl, bb⟩
    cases bn with
    | none => cases hb
    | some name =>
      cases bh with
      | none => cases hb
      | some help =>
        cases bb with
        | none => cases hb
        | some buckets =>
          simp only at hb
          split at hb
          · cases hb
          · split at hb
            · cases hb
              rename_i hne hvalid
              refine ⟨⟨by simp [HistogramCore.new], ?_⟩, rfl, rfl, rfl, rfl⟩
              simpa [List.isEmpty_iff] using hne
            · cases hb
  · intro h val hinv
    refine ⟨?_, hinv.2⟩
    rw [HistogramCore.observe]
    cases hp : position (fun b => decide (val ≤ b)) h.buckets <;>
      simp [hp, hinv.1]
  · intro h val bucket hinv
    rw [HistogramCore.observe_bucket]
    cases hp : position (fun b => decide (val ≤ b)) h.buckets with
    | none => exact hinv
    | some i => exact ⟨by simp [hinv.1], hinv.2⟩
  · intro h hinv
    exact ⟨by simp [HistogramCore.clear, hinv.1], hinv.2⟩
  · intro h l hinv hlen
    rw [InnerLocalHist.flush]
    split
    · exact hinv
    · refine ⟨?_, hinv.2⟩
      simp only [List.length_append, List.length_zipWith, List.length_drop,
        hlen, hinv.1, Nat.min_self]
      omega

/-- Witness for `histogram_invariant_amended`: a concrete build with
buckets `[1]` establishes the invariant, and a concrete observe preserves
it. -/
theorem histogram_invariant_amended_witness :
    HistInv (HistogramCore.new [1]) ∧
    HistInv ((HistogramCore.new [1]).observe 3) :=
  ⟨(histogram_invariant_amended.1 ⟨some "h", some "x", none, some [1]⟩
      ⟨"h", "x", [], HistogramCore.new [1]⟩ (by decide)).1,
   histogram_invariant_amended.2.1 (HistogramCore.new [1]) 3
     (histogram_invariant_amended.1 ⟨some "h", some "x", none, some [1]⟩
        ⟨"h", "x", [], HistogramCore.new [1]⟩ (by decide)).1⟩

/-- C5: `RegistryBuilder::build` fails with `MissingComponent` exactly
when zero collectors were supplied (no `register` call, or an empty list);
it fails with `DuplicatedCollector` exactly when some supplied collector
repeats the `(name, ordered labels)` pair of an earlier one (same name
with different labels is not a duplicate, since the key is the pair); and
every successful build returns exactly the supplied collectors (a
permutation), sorted ascending by raw descriptor name. -/
theorem registry_build_spec (inputs : Option (List Collector)) :
    (registry_build inputs = .error .MissingComponent ↔
      inputs = none ∨ inputs = some []) ∧
    (∀ l, inputs = some l →
      (registry_build inputs = .error .DuplicatedCollector ↔
        ¬ l.Pairwise (fun a b => ¬ keyEq a b))) ∧
    (∀ l m, inputs = some l → registry_build inputs = .ok m →
      List.Sorted collLe m ∧ m.Perm l ∧ l ≠ [] ∧
      l.Pairwise (fun a b => ¬ keyEq a b)) := by
  cases inputs with
  | none =>
    refine ⟨?_, ?_, ?_⟩
    · simp [registry_build]
    · intro l hl
      cases hl
    · intro l m hl
      cases hl
  | some raw =>
    cases hemp : raw.isEmpty with
    | true =>
      have hnil : raw = [] := List.isEmpty_iff.mp hemp
      subst hnil
      refine ⟨?_, ?_, ?_⟩
      · simp [registry_build]
      · intro l hl
        cases hl
        constructor
        · intro hcon
          rw [registry_build] at hcon
          simp only [List.isEmpty_nil, if_pos rfl] at hcon
          cases hcon
        · intro hcon
          exact absurd List.Pairwise.nil hcon
      · intro l m hl hm
        cases hl
        rw [registry_build] at hm
        simp only [List.isEmpty_nil, if_pos rfl] at hm
        cases hm
    | false =>
      have hne : raw ≠ [] := by
        intro hcon
        subst hcon
        simp at hemp
      have hbuild : registry_build (some raw) =
          match dedup_collectors [] raw with
          | .error e => .error e
          | .ok accepted => .ok (List.insertionSort collLe accepted) := by
        rw [registry_build]
        simp [hemp]
      cases hd : dedup_collectors [] raw with
      | error e =>
        have he : e = .DuplicatedCollector := dedup_error_kind raw [] e hd
        subst he
        rw [hd] at hbuild
        have hnotpw : ¬ raw.Pairwise (fun a b => ¬ keyEq a b) := by
          intro hpw
          obtain ⟨m, hm⟩ := (dedup_ok_iff raw []).mpr ⟨by simp, hpw⟩
          rw [hd] at hm
          cases hm
        refine ⟨?_, ?_, ?_⟩
        · rw [hbuild]
          constructor
          · intro hcon
            cases hcon
          · rintro (hcon | hcon)
            · cases hcon
            · exact absurd (by injection hcon) hne
        · intro l hl
          cases hl
          rw [hbuild]
          simp [hnotpw]
        · intro l m hl hm
          rw [hbuild] at hm
          cases hm
      | ok accepted =>
        have hacc : accepted = raw := by
          simpa using dedup_ok_eq raw [] accepted hd
        subst hacc
        rw [hd] at hbuild
        have hpw : accepted.Pairwise (fun a b => ¬ keyEq a b) :=
          ((dedup_ok_iff accepted []).mp ⟨accepted, hd⟩).2
        refine ⟨?_, ?_, ?_⟩
        · rw [hbuild]
          constructor
          · intro hcon
            cases hcon
          · rintro (hcon | hcon)
            · cases hcon
            · exact absurd (by injection hcon) hne
        · intro l hl
          cases hl
          rw [hbuild]
          constructor
          · intro hcon
            cases hcon
          · intro hcon
            exact absurd hpw hcon
        · intro l m hl hm
          cases hl
          rw [hbuild] at hm
          cases hm
          exact ⟨List.sorted_insertionSort collLe _,
            List.perm_insertionSort collLe _, hne, hpw⟩

/-- Witness for `registry_build_spec`: three collectors, two sharing the
name `a` with different label lists (not duplicates), registered out of
order, build successfully into name-ascending order. -/
theorem registry_build_spec_witness :
    List.Sorted collLe
        [⟨"a", [⟨"x", "1"⟩]⟩, ⟨"a", []⟩, (⟨"b", []⟩ : Collector)] ∧
    List.Perm [⟨"a", [⟨"x", "1"⟩]⟩, ⟨"a", []⟩, (⟨"b", []⟩ : Collector)]
      [⟨"b", []⟩, ⟨"a", [⟨"x", "1"⟩]⟩, (⟨"a", []⟩ : Collector)] ∧
    ([⟨"b", []⟩, ⟨"a", [⟨"x", "1"⟩]⟩, (⟨"a", []⟩ : Collector)] : List Collector) ≠ [] ∧
    List.Pairwise (fun a b => ¬ keyEq a b)
      [⟨"b", []⟩, ⟨"a", [⟨"x", "1"⟩]⟩, (⟨"a", []⟩ : Collector)] :=
  (registry_build_spec
      (some [⟨"b", []⟩, ⟨"a", [⟨"x", "1"⟩]⟩, ⟨"a", []⟩])).2.2
    [⟨"b", []⟩, ⟨"a", [⟨"x", "1"⟩]⟩, ⟨"a", []⟩]
    [⟨"a", [⟨"x", "1"⟩]⟩, ⟨"a", []⟩, ⟨"b", []⟩] rfl (by decide)

/-- C2 (counterexample): the claim says rendering a counter produces
`# HELP <metric_name> <help>` and `# TYPE <metric_name> counter` lines,
citing both `Metric::text_format` and `Exportable for Labeled<T>::export`.
The export path writes `# HELP {description}` and `# TYPE {kind}` with no
metric name at all (as the crate's own `export` tests assert), so its
output on the claim's own example differs from the claimed text. -/
theorem labeled_export_counterexample :
    labeled_export "http_requests_total" "Total requests" "counter" [] "2" =
      "# HELP Total requests\n# TYPE counter\nhttp_requests_total 2\n" ∧
    labeled_export "http_requests_total" "Total requests" "counter" [] "2" ≠
      "# HELP http_requests_total Total requests\n# TYPE http_requests_total counter\nhttp_requests_total 2\n" := by
  decide

/-- C2 (amended): for the registry rendering path `Metric::text_format`
the claim holds: a counter with a valid metric name, newline-free help
and value, and labels with newline-free names renders to exactly three
newline-terminated lines `# HELP <name> <help>`, `# TYPE <name> counter`,
and `<name>{<label>="<value>",...} <value>`, the brace block omitted
(leaving a single space before the value) when there are no labels and
otherwise comma-joined in caller order with `{:?}`-quoted values.  The
`Exportable::export` path instead emits `# HELP <help>` and
`# TYPE counter`, omitting the metric name from both metadata lines. -/
theorem text_format_counter_lines (name help val : String) (labels : List Label)
    (hn : valid_metric_name name = true) (hh : newlineFree help = true)
    (hv : newlineFree val = true)
    (hl : ∀ l ∈ labels, newlineFree l.name = true) :
    text_format name help true labels val =
      ("# HELP " ++ name ++ " " ++ help) ++ "\n" ++
      ("# TYPE " ++ name ++ " " ++ "counter") ++ "\n" ++
      (name ++ (if labels.isEmpty then ""
          else "\x7b" ++ labelList labels ++ "\x7d") ++ " " ++ val) ++ "\n" ∧
    newlineFree ("# HELP " ++ name ++ " " ++ help) = true ∧
    newlineFree ("# TYPE " ++ name ++ " " ++ "counter") = true ∧
    newlineFree (name ++ (if labels.isEmpty then ""
        else "\x7b" ++ labelList labels ++ "\x7d") ++ " " ++ val) = true ∧
    labeled_export name help "counter" labels val =
      ("# HELP " ++ help) ++ "\n" ++ ("# TYPE " ++ "counter") ++ "\n" ++
      (name ++ (if labels.isEmpty then " "
          else "\x7b" ++ labelList labels ++ "\x7d ") ++ val) ++ "\n" := by
  have hnm : newlineFree name = true := valid_metric_name_newlineFree name hn
  have e1 : newlineFree "# HELP " = true := rfl
  have e2 : newlineFree "# TYPE " = true := rfl
  have e3 : newlineFree " " = true := rfl
  have e4 : newlineFree "counter" = true := rfl
  have e5 : newlineFree "" = true := rfl
  have e6 : newlineFree "\x7b" = true := rfl
  have e7 : newlineFree "\x7d" = true := rfl
  refine ⟨?_, ?_, ?_, ?_, ?_⟩
  · apply string_eq_of_data
    simp [text_format, string_data_append, List.append_assoc]
  · simp [newlineFree_append, e1, e3, hnm, hh]
  · simp [newlineFree_append, e2, e3, e4, hnm]
  · cases hemp : labels.isEmpty with
    | true =>
      simp [hemp, newlineFree_append, hnm, e3, e5, hv]
    | false =>
      have hll := labelList_newlineFree labels hl
      simp [hemp, newlineFree_append, hnm, e3, e6, e7, hll, hv]
  · apply string_eq_of_data
    simp [labeled_export, string_data_append, List.append_assoc]

/-- Witness for `text_format_counter_lines` at the spec's end-to-end
example: `http_requests_total`, help `Total requests`, value `2`, no
labels. -/
theorem text_format_counter_lines_witness :
    text_format "http_requests_total" "Total requests" true [] "2" =
      "# HELP http_requests_total Total requests\n# TYPE http_requests_total counter\nhttp_requests_total 2\n" := by
  have h := text_format_counter_lines "http_requests_total" "Total requests" "2"
    [] (by decide) (by decide) (by decide) (by simp)
  exact h.1.trans (by decide)

end Prom
